import Mathlib

/-!
Verification of the du-blueprint sparse-voxel-octree core.

This file embeds the octree container (`src/svo.rs`), the LOD builder and
propagator (`src/import.rs`), and the parts of the missing `squarion` module
(`RangeZYX`, `VertexGrid`, `MaterialMapper`, `VoxelCellData`) that those
files use; the latter are modelled from the specification since their source
is not part of this repository snapshot.

Machine integers (`i32`, `u64`, `usize`) are embedded as `Int`/`Nat`; all the
quantities involved (coordinates, edge lengths, scale factors) are far from
the overflow range in every statement below, so wrap-around is not modelled.
Rust's `%` agrees with `Int.emod` on the `== 0` tests used here, and `/` on
the non-negative operands that occur agrees with `Int.ediv`.
-/

/-- Integer 3-vector, used for both points and sizes (`Point<i32>` /
`Vector<i32>` from parry3d). -/
structure Point3 where
  x : Int
  y : Int
  z : Int
deriving DecidableEq, Repr

/-- Modelled from the spec: an axis-aligned integer region with an origin and
a size, named `RangeZYX` as in the source (`squarion.rs` is missing from this
snapshot; the spec describes origin, edge length, octant splitting and padded
containment tests). -/
structure RangeZYX where
  origin : Point3
  size : Point3
deriving DecidableEq, Repr

/-- Modelled from the spec: construct-with-extent(origin, edge) builds the
cube of the given edge length at the given origin. -/
def RangeZYX.withExtent (origin : Point3) (extent : Int) : RangeZYX :=
  ⟨origin, ⟨extent, extent, extent⟩⟩

/-- Modelled from the spec: contains-point is true if the coordinate lies
within origin..origin+edge on every axis (half-open on each axis). -/
def RangeZYX.containsPoint (r : RangeZYX) (p : Point3) : Bool :=
  decide (r.origin.x ≤ p.x ∧ p.x < r.origin.x + r.size.x ∧
          r.origin.y ≤ p.y ∧ p.y < r.origin.y + r.size.y ∧
          r.origin.z ≤ p.z ∧ p.z < r.origin.z + r.size.z)

/-- Modelled from the spec: split-into-octants produces exactly 8 sub-ranges
of half the edge length tiling the parent, in a fixed deterministic (ZYX)
order; octant `i` is offset by the half-sizes according to the three bits of
`i`. -/
def RangeZYX.splitAtCenter (r : RangeZYX) (i : Fin 8) : RangeZYX :=
  ⟨⟨r.origin.x + (i.val % 2 : Nat) * (r.size.x / 2),
    r.origin.y + (i.val / 2 % 2 : Nat) * (r.size.y / 2),
    r.origin.z + (i.val / 4 : Nat) * (r.size.z / 2)⟩,
   ⟨r.size.x / 2, r.size.y / 2, r.size.z / 2⟩⟩

/-- The padded range built inside `traverse_svo` (`import.rs`): origin moved
back by the padding and size grown by twice the padding on every axis. -/
def paddedRange (r : RangeZYX) (padding : Int) : RangeZYX :=
  ⟨⟨r.origin.x - padding, r.origin.y - padding, r.origin.z - padding⟩,
   ⟨r.size.x + 2 * padding, r.size.y + 2 * padding, r.size.z + 2 * padding⟩⟩

/-- The `within_lod` test of `traverse_svo`: every coordinate component of
the sample is exactly divisible by the scale factor. -/
def alignedAt (p : Point3) (scaleFactor : Int) : Bool :=
  decide (p.x % scaleFactor = 0 ∧ p.y % scaleFactor = 0 ∧ p.z % scaleFactor = 0)

/-- `SvoNode<T>` from `svo.rs`: a Leaf carries one payload, an Internal node
carries one payload plus exactly 8 owned children. -/
inductive SvoNode (T : Type) where
  | Leaf : T → SvoNode T
  | Internal : T → (Fin 8 → SvoNode T) → SvoNode T

/-- `SvoReturn<T>` from `svo.rs`: the classifier verdict used by `from_fn`. -/
inductive SvoReturn (T : Type) where
  | Leaf : T → SvoReturn T
  | Internal : T → SvoReturn T

/-- `Svo<T>` from `svo.rs`: a root node paired with the range it spans. -/
structure Svo (T : Type) where
  root : SvoNode T
  range : RangeZYX

/-- Whether a node is a `Leaf`. -/
def SvoNode.isLeaf {T : Type} : SvoNode T → Bool
  | .Leaf _ => true
  | .Internal _ _ => false

/-- The payload carried at a node (every node carries one). -/
def payloadOf {T : Type} : SvoNode T → T
  | .Leaf v => v
  | .Internal v _ => v

/-- The node reached from `n` by following the child indices in `path`. -/
def nodeAt {T : Type} : SvoNode T → List (Fin 8) → Option (SvoNode T)
  | n, [] => some n
  | .Leaf _, _ :: _ => none
  | .Internal _ c, i :: rest => nodeAt (c i) rest

/-- The payload of the node reached by `path`, if the path exists. -/
def payloadAt {T : Type} (n : SvoNode T) (path : List (Fin 8)) : Option T :=
  (nodeAt n path).map payloadOf

/-- The range of the node reached by `path`, derived by repeated octant
splitting from the root range (ranges are implicit in the tree). -/
def rangeAt : RangeZYX → List (Fin 8) → RangeZYX
  | r, [] => r
  | r, i :: rest => rangeAt (r.splitAtCenter i) rest

/-- Iterated halving of a scale factor, one step per depth level, matching
the `scale_factor / 2` performed at each recursion step of `traverse_svo`. -/
def iterHalve (s : Int) : Nat → Int
  | 0 => s
  | d + 1 => iterHalve (s / 2) d

/-- All three size components are non-negative. -/
def sizeNonneg (r : RangeZYX) : Prop :=
  0 ≤ r.size.x ∧ 0 ≤ r.size.y ∧ 0 ≤ r.size.z

/-- `MaterialId` as used by `build_svo_node`: a numeric identifier plus a
short name. -/
structure MaterialId where
  id : Nat
  short_name : String
deriving DecidableEq, Repr

/-- Modelled from the spec: the material mapping is a registry translating a
compact per-tree index to an external material identifier (`MaterialMapper`
lives in the missing `squarion` module); embedded as an association list. -/
def MaterialMapper := List (Nat × MaterialId)
deriving DecidableEq

/-- Modelled from the spec: `MaterialMapper::default()` is the empty
registry. -/
def MaterialMapper.empty : MaterialMapper := []

/-- Modelled from the spec: `insert` registers a material identifier under a
compact index. -/
def MaterialMapper.insert (m : MaterialMapper) (idx : Nat) (mat : MaterialId) :
    MaterialMapper :=
  (idx, mat) :: m

/-- Look up the material registered under a compact index. -/
def MaterialMapper.lookup (m : MaterialMapper) (idx : Nat) : Option MaterialId :=
  List.lookup idx m

/-- Modelled from the spec: the per-node voxel grid (`VertexGrid` lives in
the missing `squarion` module). It is allocated against an inner and an outer
coordinate frame; its contents are opaque to the core except for the
write-material, write-corner-offset and emptiness operations, embedded here
as finite association lists of written samples. -/
structure VertexGrid where
  outer : RangeZYX
  inner : RangeZYX
  materials : List (Point3 × Nat)
  offsets : List (Point3 × (Nat × Nat × Nat))
deriving DecidableEq

/-- Modelled from the spec: `VertexGrid::new(outer, inner)` allocates a fresh
grid with no written data. -/
def VertexGrid.new (outer inner : RangeZYX) : VertexGrid :=
  ⟨outer, inner, [], []⟩

/-- Modelled from the spec: the payload's own emptiness predicate, true when
the grid holds no meaningful (material) data. -/
def VertexGrid.isEmpty (g : VertexGrid) : Bool :=
  g.materials.isEmpty

/-- Modelled from the spec: write-material-at(position, material index). -/
def VertexGrid.setMaterial (g : VertexGrid) (p : Point3) (mat : Nat) : VertexGrid :=
  { g with materials := (p, mat) :: g.materials }

/-- Modelled from the spec: write-corner-offset-at(position, 3-byte offset). -/
def VertexGrid.setOffset (g : VertexGrid) (p : Point3) (off : Nat × Nat × Nat) :
    VertexGrid :=
  { g with offsets := (p, off) :: g.offsets }

/-- Modelled from the spec: `VoxelCellData` (missing `squarion` module) pairs
a vertex grid with a material mapping. -/
structure VoxelCellData where
  grid : VertexGrid
  mapping : MaterialMapper
deriving DecidableEq

/-- Modelled from the spec: `VoxelCellData::new(grid, mapping)`. -/
def VoxelCellData.new (grid : VertexGrid) (mapping : MaterialMapper) :
    VoxelCellData :=
  ⟨grid, mapping⟩

/-- Modelled from the spec: `set_material_at_position` writes a material
index into the cell's grid. -/
def VoxelCellData.setMaterialAtPosition (cd : VoxelCellData) (p : Point3)
    (mat : Nat) : VoxelCellData :=
  { cd with grid := cd.grid.setMaterial p mat }

/-- Modelled from the spec: `set_vertex_offset_at_position` writes a 3-byte
corner displacement into the cell's grid. -/
def VoxelCellData.setVertexOffsetAtPosition (cd : VoxelCellData) (p : Point3)
    (off : Nat × Nat × Nat) : VoxelCellData :=
  { cd with grid := cd.grid.setOffset p off }

/-- Conjunction of a Boolean predicate over all 8 child slots, the embedding
of `children.iter().all(...)` from `svo.rs`. -/
def allChildren (f : Fin 8 → Bool) : Bool :=
  f 0 && f 1 && f 2 && f 3 && f 4 && f 5 && f 6 && f 7

/-- `SvoNode::is_empty` from `svo.rs`: a leaf with no data is empty, an
internal node with no data is empty when all its children are, and any node
carrying data is not empty. -/
def SvoNode.isEmpty : SvoNode (Option VoxelCellData) → Bool
  | .Leaf none => true
  | .Internal none c => allChildren (fun i => (c i).isEmpty)
  | .Leaf (some _) => false
  | .Internal (some _) _ => false

/-- `SvoNode::prune_empty_grids` from `svo.rs`: bottom-up collapse of empty
subtrees into the `Leaf(None)` marker. -/
def SvoNode.pruneEmptyGrids : SvoNode (Option VoxelCellData) → SvoNode (Option VoxelCellData)
  | .Leaf (some cellData) =>
      if cellData.grid.isEmpty then .Leaf none else .Leaf (some cellData)
  | .Internal (some cellData) children =>
      if allChildren (fun i => ((children i).pruneEmptyGrids).isEmpty) then
        .Leaf none
      else
        .Internal (some cellData) (fun i => (children i).pruneEmptyGrids)
  | .Leaf none => .Leaf none
  | .Internal none _ => .Leaf none

/-- `Svo::prune_empty_grids` from `svo.rs`: prunes from the root downwards,
keeping the range unchanged. -/
def Svo.pruneEmptyGrids (svo : Svo (Option VoxelCellData)) :
    Svo (Option VoxelCellData) :=
  ⟨svo.root.pruneEmptyGrids, svo.range⟩

/-- `traverse_svo` from `import.rs` (the body of `set_at_all_lods`): returns
early if the padded range misses the sample, applies `setFn` to a present
payload when the sample is LOD-aligned, and recurses into all 8 children
with halved scale factor. In-place mutation is embedded as returning the
updated node. -/
def traverseSvo {P : Type} (setFn : P → Point3 → Int → P) (globalPosition : Point3) :
    SvoNode (Option P) → RangeZYX → Nat → Int → SvoNode (Option P)
  | .Leaf v, range, _, scaleFactor =>
      if (paddedRange range scaleFactor).containsPoint globalPosition then
        if alignedAt globalPosition scaleFactor then
          .Leaf (v.map (fun cellData => setFn cellData globalPosition scaleFactor))
        else .Leaf v
      else .Leaf v
  | .Internal v c, range, currentDepth, scaleFactor =>
      if (paddedRange range scaleFactor).containsPoint globalPosition then
        .Internal
          (if alignedAt globalPosition scaleFactor then
            v.map (fun cellData => setFn cellData globalPosition scaleFactor)
          else v)
          (fun i => traverseSvo setFn globalPosition (c i) (range.splitAtCenter i)
            (currentDepth + 1) (scaleFactor / 2))
      else .Internal v c

/-- `set_at_all_lods` from `import.rs`: runs `traverse_svo` from the root
over the root range. -/
def setAtAllLods {P : Type} (svo : Svo (Option P)) (globalPosition : Point3)
    (currentDepth : Nat) (scaleFactor : Int) (setFn : P → Point3 → Int → P) :
    Svo (Option P) :=
  ⟨traverseSvo setFn globalPosition svo.root svo.range currentDepth scaleFactor,
   svo.range⟩

/-- The material-stamp operation passed by `set_material_at_all_lods`: write
the material at the sample and seed the neutral corner offset `(126,126,126)`
at the 8 lattice corners offset by 0 or -1 along each axis. -/
def materialStamp (material : Nat) (cd : VoxelCellData) (pos : Point3) (_ : Int) :
    VoxelCellData :=
  let corners : List (Int × Int × Int) :=
    [0, 1].flatMap (fun dx => [0, 1].flatMap (fun dy => [0, 1].map (fun dz => (dx, dy, dz))))
  corners.foldl
    (fun cd d =>
      cd.setVertexOffsetAtPosition ⟨pos.x - d.1, pos.y - d.2.1, pos.z - d.2.2⟩
        (126, 126, 126))
    (cd.setMaterialAtPosition pos material)

/-- `set_material_at_all_lods` from `import.rs`: initial scale factor
`1 <<< (height - 3)` at the root, material stamp at every aligned LOD. -/
def setMaterialAtAllLods (svo : Svo (Option VoxelCellData)) (globalPosition : Point3)
    (material : Nat) (height : Nat) : Svo (Option VoxelCellData) :=
  setAtAllLods svo globalPosition 0 (2 ^ (height - 3)) (materialStamp material)

/-- `set_vertex_offset_at_all_lods` from `import.rs`: initial scale factor
`1 <<< (height - 3)` at the root, explicit corner offset at every aligned
LOD. -/
def setVertexOffsetAtAllLods (svo : Svo (Option VoxelCellData))
    (globalPosition : Point3) (offset : Nat × Nat × Nat) (height : Nat) :
    Svo (Option VoxelCellData) :=
  setAtAllLods svo globalPosition 0 (2 ^ (height - 3))
    (fun cd pos _ => cd.setVertexOffsetAtPosition pos offset)

/-- The debug material registered at index 1 by `build_svo_node`. -/
def debugMaterial : MaterialId :=
  ⟨157903047, "Debug1\x00\x00"⟩

/-- The material mapping pre-registered by `build_svo_node`: index 1 is the
internal debug material, index 2 the caller-supplied material identifier. -/
def builderMapping (material : Nat) : MaterialMapper :=
  (MaterialMapper.empty.insert 1 debugMaterial).insert 2 ⟨material, "Material"⟩

/-- The payload allocated at every node by `build_svo_node`: a fresh grid
over `outer = with_extent(origin - 1, 35)` and
`inner = with_extent(origin, leaf_size)`, with the builder's mapping. Both
branches of `build_svo_node` construct exactly this value. -/
def mkCell (origin : Point3) (leafSize : Int) (material : Nat) : VoxelCellData :=
  VoxelCellData.new
    (VertexGrid.new
      (RangeZYX.withExtent ⟨origin.x - 1, origin.y - 1, origin.z - 1⟩ 35)
      (RangeZYX.withExtent origin leafSize))
    (builderMapping material)

/-- `build_svo_node` from `import.rs`: a node becomes a Leaf once its edge is
at most `leaf_size` or its depth reaches `max_depth`, otherwise an Internal
node recursing into the 8 octants; every node gets a fresh payload. -/
def buildSvoNode (range : RangeZYX) (leafSize : Int) (depth maxDepth : Nat)
    (material : Nat) : SvoNode (Option VoxelCellData) :=
  if range.size.x ≤ leafSize ∨ maxDepth ≤ depth then
    .Leaf (some (mkCell range.origin leafSize material))
  else
    .Internal (some (mkCell range.origin leafSize material))
      (fun i => buildSvoNode (range.splitAtCenter i) leafSize (depth + 1) maxDepth
        material)
termination_by maxDepth - depth
decreasing_by
  simp only [not_or, not_le] at *
  omega

/-- `create_empty_lods` from `import.rs`: root edge `128 * 2^(height-5)`,
leaf granularity 32, recursion capped at depth `height - 3`. -/
def createEmptyLods (origin : Point3) (height : Nat) (material : Nat) :
    Svo (Option VoxelCellData) :=
  let coreSize : Int := 128 * 2 ^ (height - 5)
  let rootRange := RangeZYX.withExtent origin coreSize
  ⟨buildSvoNode rootRange 32 0 (height - 3) material, rootRange⟩

/-- Rust `usize::is_power_of_two`, used by the `Svo::from_fn` assertion:
true exactly for the positive powers of two (false at zero). -/
def isPow2 (n : Nat) : Bool :=
  n != 0 && (n &&& (n - 1)) == 0

/-- Whether a classifier verdict is a Leaf verdict. -/
def SvoReturn.isLeafVerdict {T : Type} : SvoReturn T → Bool
  | .Leaf _ => true
  | .Internal _ => false

/-- `SvoNode::from_fn` from `svo.rs`. The function only ever receives cubes
(the root is `with_extent(origin, extent)` and octant splitting of a cube
yields cubes of half the edge), so the range is embedded as origin plus a
natural-number extent; the `assert!(range.size.min() != 0)` failure is
embedded as `none`. -/
def SvoNode.fromFn {T : Type} (func : RangeZYX → SvoReturn T) (origin : Point3)
    (extent : Nat) : Option (SvoNode T) :=
  if _h : extent = 0 then none
  else
    let range := RangeZYX.withExtent origin (extent : Int)
    match func range with
    | .Leaf v => some (.Leaf v)
    | .Internal v =>
      (fromFn func (range.splitAtCenter 0).origin (extent / 2)).bind fun c0 =>
      (fromFn func (range.splitAtCenter 1).origin (extent / 2)).bind fun c1 =>
      (fromFn func (range.splitAtCenter 2).origin (extent / 2)).bind fun c2 =>
      (fromFn func (range.splitAtCenter 3).origin (extent / 2)).bind fun c3 =>
      (fromFn func (range.splitAtCenter 4).origin (extent / 2)).bind fun c4 =>
      (fromFn func (range.splitAtCenter 5).origin (extent / 2)).bind fun c5 =>
      (fromFn func (range.splitAtCenter 6).origin (extent / 2)).bind fun c6 =>
      (fromFn func (range.splitAtCenter 7).origin (extent / 2)).bind fun c7 =>
      some (.Internal v ![c0, c1, c2, c3, c4, c5, c6, c7])
termination_by extent
decreasing_by all_goals omega

/-- `Svo::from_fn` from `svo.rs`: asserts the extent is a power of two, then
builds the root node over `with_extent(origin, extent)`; an assertion failure
anywhere is embedded as `none`. -/
def Svo.fromFn {T : Type} (origin : Point3) (extent : Nat)
    (func : RangeZYX → SvoReturn T) : Option (Svo T) :=
  if isPow2 extent then
    (SvoNode.fromFn func origin extent).map
      (fun root => ⟨root, RangeZYX.withExtent origin (extent : Int)⟩)
  else none

/-- Rust `f64::round` (nearest integer, ties away from zero), embedded over
the rationals. The concrete inputs used in statements below are exactly
representable in `f64` with exact arithmetic, so the rational model agrees
with the floating-point computation there. -/
def roundHalfAway (q : ℚ) : Int :=
  if 0 ≤ q then ⌊q + 1 / 2⌋ else ⌈q - 1 / 2⌉

/-- The coordinate snapping of `process_json_and_create_svo` (`import.rs`):
each axis becomes `(pos + 0.5).round() as i32`. -/
def snapCoord (q : ℚ) : Int :=
  roundHalfAway (q + 1 / 2)

/-- The global position handed to the propagator for one input position. -/
def snapPosition (p : ℚ × ℚ × ℚ) : Point3 :=
  ⟨snapCoord p.1, snapCoord p.2.1, snapCoord p.2.2⟩

/-- The list of global integer coordinates handed to the propagator for the
`positions` array of the input document. -/
def positionsToGlobal (positions : List (ℚ × ℚ × ℚ)) : List Point3 :=
  positions.map snapPosition

/-- The leaf/internal shape of a tree together with the presence (`isSome`)
of every node's payload, forgetting the payload values. -/
def presenceShape {P : Type} : SvoNode (Option P) → SvoNode Bool
  | .Leaf v => .Leaf v.isSome
  | .Internal v c => .Internal v.isSome (fun i => presenceShape (c i))

/-- A range expanded by one unit of padding on every side, following the
spec's words (origin moved back by 1, size grown by 2 on every axis); stated
for comparison with the outer range the builder actually allocates. -/
def RangeZYX.expandByOne (r : RangeZYX) : RangeZYX :=
  ⟨⟨r.origin.x - 1, r.origin.y - 1, r.origin.z - 1⟩,
   ⟨r.size.x + 2, r.size.y + 2, r.size.z + 2⟩⟩

/-- A sample cell whose grid holds no written data (logically empty). -/
def sampleEmptyCell : VoxelCellData :=
  VoxelCellData.new
    (VertexGrid.new (RangeZYX.withExtent ⟨0, 0, 0⟩ 2) (RangeZYX.withExtent ⟨0, 0, 0⟩ 1))
    MaterialMapper.empty

/-- A sample cell with one written material sample (logically non-empty). -/
def sampleFullCell : VoxelCellData :=
  sampleEmptyCell.setMaterialAtPosition ⟨0, 0, 0⟩ 2

/-! ## Basic lemmas -/

theorem allChildren_eq_true_iff (f : Fin 8 → Bool) :
    allChildren f = true ↔ ∀ i, f i = true := by
  simp only [allChildren, Bool.and_eq_true]
  constructor
  · rintro ⟨⟨⟨⟨⟨⟨⟨h0, h1⟩, h2⟩, h3⟩, h4⟩, h5⟩, h6⟩, h7⟩ i
    fin_cases i <;> assumption
  · intro h
    exact ⟨⟨⟨⟨⟨⟨⟨h 0, h 1⟩, h 2⟩, h 3⟩, h 4⟩, h 5⟩, h 6⟩, h 7⟩

theorem splitAtCenter_sizeNonneg (r : RangeZYX) (i : Fin 8) (h : sizeNonneg r) :
    sizeNonneg (r.splitAtCenter i) := by
  obtain ⟨hx, hy, hz⟩ := h
  refine ⟨?_, ?_, ?_⟩ <;> simp only [RangeZYX.splitAtCenter] <;> omega

theorem padded_containsPoint_step (r : RangeZYX) (s : Int) (i : Fin 8) (p : Point3)
    (hsz : sizeNonneg r) (hs : 0 ≤ s)
    (h : (paddedRange (r.splitAtCenter i) (s / 2)).containsPoint p = true) :
    (paddedRange r s).containsPoint p = true := by
  obtain ⟨hx, hy, hz⟩ := hsz
  simp only [RangeZYX.containsPoint, paddedRange, RangeZYX.splitAtCenter,
    decide_eq_true_eq] at h ⊢
  fin_cases i <;> simp only [] at h <;> norm_num at h ⊢ <;> omega

theorem padded_containsPoint_chain (p : Point3) :
    ∀ (path : List (Fin 8)) (r : RangeZYX) (s : Int), sizeNonneg r → 0 ≤ s →
      (paddedRange (rangeAt r path) (iterHalve s path.length)).containsPoint p = true →
      (paddedRange r s).containsPoint p = true
  | [], _, _, _, _, h => h
  | i :: rest, r, s, hsz, hs, h =>
      padded_containsPoint_step r s i p hsz hs
        (padded_containsPoint_chain p rest (r.splitAtCenter i) (s / 2)
          (splitAtCenter_sizeNonneg r i hsz) (by omega) h)

theorem iterHalve_two_pow (d n : Nat) (h : d ≤ n) :
    iterHalve ((2 : Int) ^ n) d = 2 ^ (n - d) := by
  induction d generalizing n with
  | zero => simp [iterHalve]
  | succ d ih =>
      obtain ⟨m, rfl⟩ : ∃ m, n = m + 1 := ⟨n - 1, by omega⟩
      have h2 : ((2 : Int) ^ (m + 1)) / 2 = 2 ^ m := by
        rw [pow_succ]
        exact Int.mul_ediv_cancel _ (by norm_num)
      have : (m + 1) - (d + 1) = m - d := by omega
      simp only [iterHalve, h2, this, ih m (by omega)]

theorem two_pow_ediv_two_pow (d n : Nat) (h : d ≤ n) :
    (2 : Int) ^ n / 2 ^ d = 2 ^ (n - d) := by
  have hsplit : (2 : Int) ^ n = 2 ^ (n - d) * 2 ^ d := by
    rw [← pow_add]
    congr 1
    omega
  rw [hsplit, Int.mul_ediv_cancel _ (pow_ne_zero _ (by norm_num))]

/-! ## The propagator's write pattern -/

theorem traverseSvo_payloadAt {P : Type} (setFn : P → Point3 → Int → P) (p : Point3) :
    ∀ (path : List (Fin 8)) (n : SvoNode (Option P)) (r : RangeZYX) (d : Nat)
      (s : Int), sizeNonneg r → 0 ≤ s →
      payloadAt (traverseSvo setFn p n r d s) path =
        (payloadAt n path).map (fun ov =>
          if alignedAt p (iterHalve s path.length) &&
              (paddedRange (rangeAt r path) (iterHalve s path.length)).containsPoint p
          then ov.map (fun v => setFn v p (iterHalve s path.length))
          else ov) := by
  intro path
  induction path with
  | nil =>
      intro n r d s _ _
      cases n with
      | Leaf v =>
          by_cases hp : (paddedRange r s).containsPoint p = true <;>
            by_cases ha : alignedAt p s = true <;>
              simp [traverseSvo, payloadAt, nodeAt, payloadOf, hp, ha, iterHalve,
                rangeAt]
      | Internal v c =>
          by_cases hp : (paddedRange r s).containsPoint p = true <;>
            by_cases ha : alignedAt p s = true <;>
              simp [traverseSvo, payloadAt, nodeAt, payloadOf, hp, ha, iterHalve,
                rangeAt]
  | cons i rest ih =>
      intro n r d s hsz hs
      cases n with
      | Leaf v =>
          by_cases hp : (paddedRange r s).containsPoint p = true <;>
            by_cases ha : alignedAt p s = true <;>
              simp [traverseSvo, payloadAt, nodeAt, hp, ha]
      | Internal v c =>
          by_cases hp : (paddedRange r s).containsPoint p = true
          · have hrec := ih (c i) (r.splitAtCenter i) (d + 1) (s / 2)
              (splitAtCenter_sizeNonneg r i hsz) (by omega)
            simp only [traverseSvo, hp, if_true, payloadAt, nodeAt, List.length_cons,
              iterHalve, rangeAt] at hrec ⊢
            exact hrec
          · have hdeep :
                (paddedRange (rangeAt r (i :: rest))
                  (iterHalve s (i :: rest).length)).containsPoint p = false := by
              rcases Bool.eq_false_or_eq_true
                ((paddedRange (rangeAt r (i :: rest))
                  (iterHalve s (i :: rest).length)).containsPoint p) with h | h
              · exact absurd (padded_containsPoint_chain p (i :: rest) r s hsz hs h) hp
              · exact h
            simp only [List.length_cons, iterHalve, rangeAt] at hdeep
            simp [traverseSvo, hp, payloadAt, nodeAt, iterHalve, rangeAt, hdeep,
              Function.comp]
            rfl

/-! ## Structure of the built tree -/

theorem buildSvoNode_nodeAt_spec (material : Nat) (K : Nat) :
    ∀ (path : List (Fin 8)) (d : Nat) (r : RangeZYX), d ≤ K →
      r.size = ⟨32 * 2 ^ (K - d), 32 * 2 ^ (K - d), 32 * 2 ^ (K - d)⟩ →
      ∀ m, nodeAt (buildSvoNode r 32 d K material) path = some m →
        d + path.length ≤ K ∧
        (rangeAt r path).size =
          ⟨32 * 2 ^ (K - (d + path.length)), 32 * 2 ^ (K - (d + path.length)),
            32 * 2 ^ (K - (d + path.length))⟩ ∧
        payloadOf m = some (mkCell (rangeAt r path).origin 32 material) ∧
        (m.isLeaf = true ↔ d + path.length = K) := by
  intro path
  induction path with
  | nil =>
      intro d r hd hr m hm
      simp only [nodeAt, Option.some.injEq] at hm
      subst hm
      unfold buildSvoNode
      by_cases hdK : d = K
      · subst hdK
        have hx : r.size.x = 32 := by rw [hr]; simp
        rw [if_pos (Or.inl (by omega))]
        refine ⟨by simp, by simpa [rangeAt] using hr, rfl, by simp [SvoNode.isLeaf]⟩
      · have hpow : (2 : Int) ^ 1 ≤ 2 ^ (K - d) :=
          pow_le_pow_right₀ (by norm_num) (by omega)
        have hx : ¬(r.size.x ≤ 32) := by
          rw [hr]
          simp only []
          nlinarith
        rw [if_neg (by push_neg; exact ⟨by omega, by omega⟩)]
        refine ⟨by simp; omega, by simpa [rangeAt] using hr, rfl, ?_⟩
        simp [SvoNode.isLeaf]
        omega
  | cons i rest ih =>
      intro d r hd hr m hm
      unfold buildSvoNode at hm
      by_cases hcond : (r.size.x ≤ 32 ∨ K ≤ d)
      · rw [if_pos hcond] at hm
        simp [nodeAt] at hm
      · rw [if_neg hcond] at hm
        simp only [nodeAt] at hm
        push_neg at hcond
        have hdK : d < K := by omega
        have hsplit : (r.splitAtCenter i).size =
            ⟨32 * 2 ^ (K - (d + 1)), 32 * 2 ^ (K - (d + 1)), 32 * 2 ^ (K - (d + 1))⟩ := by
          have hKd : K - d = (K - (d + 1)) + 1 := by omega
          have hhalf : (32 * (2 : Int) ^ (K - d)) / 2 = 32 * 2 ^ (K - (d + 1)) := by
            rw [hKd, pow_succ, show 32 * ((2 : Int) ^ (K - (d + 1)) * 2) =
              32 * 2 ^ (K - (d + 1)) * 2 from by ring]
            exact Int.mul_ediv_cancel _ (by norm_num)
          simp [RangeZYX.splitAtCenter, hr, hhalf]
        obtain ⟨h1, h2, h3, h4⟩ := ih (d + 1) (r.splitAtCenter i) (by omega) hsplit m hm
        have hlen : d + (rest.length + 1) = (d + 1) + rest.length := by omega
        refine ⟨by simp [List.length_cons]; omega, ?_, ?_, ?_⟩
        · simpa [rangeAt, List.length_cons, hlen] using h2
        · simpa [rangeAt] using h3
        · simpa [rangeAt, List.length_cons, hlen] using h4

theorem nodeAt_nil {T : Type} (n : SvoNode T) : nodeAt n [] = some n := by
  cases n <;> rfl

theorem setAtAllLods_root {P : Type} (svo : Svo (Option P)) (p : Point3) (d : Nat)
    (s : Int) (setFn : P → Point3 → Int → P) :
    (setAtAllLods svo p d s setFn).root = traverseSvo setFn p svo.root svo.range d s :=
  rfl

theorem createEmptyLods_rootSize (o : Point3) (H mat : Nat) (hH : 5 ≤ H) :
    (createEmptyLods o H mat).range.size =
      ⟨32 * 2 ^ (H - 3), 32 * 2 ^ (H - 3), 32 * 2 ^ (H - 3)⟩ := by
  have hcore : (128 : Int) * 2 ^ (H - 5) = 32 * 2 ^ (H - 3) := by
    rw [show H - 3 = (H - 5) + 2 from by omega, pow_add]
    ring
  simp [createEmptyLods, RangeZYX.withExtent, hcore]

theorem createEmptyLods_nodeAt_spec (o : Point3) (H mat : Nat) (hH : 5 ≤ H)
    (path : List (Fin 8)) (m : SvoNode (Option VoxelCellData))
    (hm : nodeAt (createEmptyLods o H mat).root path = some m) :
    path.length ≤ H - 3 ∧
    (rangeAt (createEmptyLods o H mat).range path).size =
      ⟨32 * 2 ^ (H - 3 - path.length), 32 * 2 ^ (H - 3 - path.length),
        32 * 2 ^ (H - 3 - path.length)⟩ ∧
    payloadOf m = some (mkCell (rangeAt (createEmptyLods o H mat).range path).origin
      32 mat) ∧
    (m.isLeaf = true ↔ path.length = H - 3) := by
  have hr : (createEmptyLods o H mat).range.size =
      ⟨32 * 2 ^ ((H - 3) - 0), 32 * 2 ^ ((H - 3) - 0), 32 * 2 ^ ((H - 3) - 0)⟩ :=
    createEmptyLods_rootSize o H mat hH
  obtain ⟨h1, h2, h3, h4⟩ :=
    buildSvoNode_nodeAt_spec mat (H - 3) path 0 (createEmptyLods o H mat).range
      (by omega) hr m hm
  exact ⟨by omega, by simpa using h2, h3, by simpa using h4⟩

theorem createEmptyLods_sizeNonneg (o : Point3) (H mat : Nat) (hH : 5 ≤ H) :
    sizeNonneg (createEmptyLods o H mat).range := by
  have hr := createEmptyLods_rootSize o H mat hH
  refine ⟨?_, ?_, ?_⟩ <;> rw [hr] <;>
    exact (by positivity : (0 : Int) ≤ 32 * 2 ^ (H - 3))

/-- C1: on a tree built for height `H ≥ 5`, one `set_at_all_lods` call from
the root with initial scale `2^(H-3)` applies the mutation to the payload of
the node at depth `d` (reached by `path`, scale `s_d = 2^(H-3) / 2^d`) if and
only if every coordinate component of the sample is divisible by `s_d` and
the sample lies in the node's range padded by `s_d` on every side; otherwise
that payload is left unchanged. Every node of the built tree has a present
payload. -/
theorem lod_propagator_writes_iff (H : Nat) (hH : 5 ≤ H) (o : Point3)
    (material : Nat) (p : Point3)
    (setFn : VoxelCellData → Point3 → Int → VoxelCellData)
    (path : List (Fin 8)) (m : SvoNode (Option VoxelCellData))
    (hm : nodeAt (createEmptyLods o H material).root path = some m) :
    ∃ v, payloadOf m = some v ∧
      payloadAt
        (setAtAllLods (createEmptyLods o H material) p 0 (2 ^ (H - 3)) setFn).root
        path =
      some (if alignedAt p ((2 : Int) ^ (H - 3) / 2 ^ path.length) &&
              (paddedRange (rangeAt (createEmptyLods o H material).range path)
                ((2 : Int) ^ (H - 3) / 2 ^ path.length)).containsPoint p
        then some (setFn v p ((2 : Int) ^ (H - 3) / 2 ^ path.length))
        else some v) := by
  obtain ⟨hlen, hsize, hpayload, _⟩ :=
    createEmptyLods_nodeAt_spec o H material hH path m hm
  refine ⟨mkCell (rangeAt (createEmptyLods o H material).range path).origin 32
    material, hpayload, ?_⟩
  have hscale : iterHalve ((2 : Int) ^ (H - 3)) path.length =
      (2 : Int) ^ (H - 3) / 2 ^ path.length := by
    rw [iterHalve_two_pow _ _ hlen, two_pow_ediv_two_pow _ _ hlen]
  have hpat : payloadAt (createEmptyLods o H material).root path =
      some (payloadOf m) := by
    simp [payloadAt, hm]
  rw [setAtAllLods_root,
    traverseSvo_payloadAt setFn p path (createEmptyLods o H material).root
      (createEmptyLods o H material).range 0 (2 ^ (H - 3))
      (createEmptyLods_sizeNonneg o H material hH) (by positivity),
    hscale, hpat, hpayload]
  by_cases hcond : (alignedAt p ((2 : Int) ^ (H - 3) / 2 ^ path.length) &&
      (paddedRange (rangeAt (createEmptyLods o H material).range path)
        ((2 : Int) ^ (H - 3) / 2 ^ path.length)).containsPoint p) = true <;>
    simp [hcond]

/-- Witness for C1: instantiated at height 5, the origin sample, the root
path and the identity mutation. -/
theorem lod_propagator_writes_iff_witness :
    ∃ v, payloadOf (createEmptyLods ⟨0, 0, 0⟩ 5 42).root = some v ∧
      payloadAt
        (setAtAllLods (createEmptyLods ⟨0, 0, 0⟩ 5 42) ⟨0, 0, 0⟩ 0 (2 ^ (5 - 3))
          (fun cd _ _ => cd)).root [] =
      some (if alignedAt ⟨0, 0, 0⟩ ((2 : Int) ^ (5 - 3) / 2 ^ ([] : List (Fin 8)).length) &&
              (paddedRange (rangeAt (createEmptyLods ⟨0, 0, 0⟩ 5 42).range [])
                ((2 : Int) ^ (5 - 3) / 2 ^ ([] : List (Fin 8)).length)).containsPoint
                ⟨0, 0, 0⟩
        then some v else some v) :=
  lod_propagator_writes_iff 5 (by norm_num) ⟨0, 0, 0⟩ 42 ⟨0, 0, 0⟩
    (fun cd _ _ => cd) [] (createEmptyLods ⟨0, 0, 0⟩ 5 42).root (nodeAt_nil _)

/-- C2: for `H ≥ 5`, `create_empty_lods` returns a tree whose root range has
edge `128 * 2^(H-5)`; a node is a Leaf exactly when its edge is at most 32 or
its depth is at least `H - 3`; every Leaf lies at depth `H - 3` with edge 32;
and every node carries a present, freshly allocated payload. -/
theorem create_empty_lods_shape (H : Nat) (hH : 5 ≤ H) (o : Point3)
    (material : Nat) :
    (createEmptyLods o H material).range =
      RangeZYX.withExtent o (128 * 2 ^ (H - 5)) ∧
    ∀ (path : List (Fin 8)) (m : SvoNode (Option VoxelCellData)),
      nodeAt (createEmptyLods o H material).root path = some m →
        (m.isLeaf = true ↔
          ((rangeAt (createEmptyLods o H material).range path).size.x ≤ 32 ∨
            H - 3 ≤ path.length)) ∧
        (m.isLeaf = true → path.length = H - 3 ∧
          (rangeAt (createEmptyLods o H material).range path).size = ⟨32, 32, 32⟩) ∧
        (payloadOf m).isSome = true := by
  refine ⟨rfl, ?_⟩
  intro path m hm
  obtain ⟨hlen, hsize, hpayload, hleaf⟩ :=
    createEmptyLods_nodeAt_spec o H material hH path m hm
  have hx : (rangeAt (createEmptyLods o H material).range path).size.x =
      32 * 2 ^ (H - 3 - path.length) := by
    rw [hsize]
  refine ⟨?_, ?_, ?_⟩
  · constructor
    · intro hl
      have : path.length = H - 3 := hleaf.mp hl
      exact Or.inr (by omega)
    · rintro (hsmall | hdeep)
      · rw [hx] at hsmall
        have hexp : H - 3 - path.length = 0 := by
          by_contra hne
          have h2 : (2 : Int) ^ 1 ≤ 2 ^ (H - 3 - path.length) :=
            pow_le_pow_right₀ (by norm_num) (by omega)
          nlinarith
        exact hleaf.mpr (by omega)
      · exact hleaf.mpr (by omega)
  · intro hl
    have hplen : path.length = H - 3 := hleaf.mp hl
    refine ⟨hplen, ?_⟩
    rw [hsize, hplen]
    norm_num
  · rw [hpayload]
    rfl

/-- Witness for C2: instantiated at height 5, origin 0 and material 7. -/
theorem create_empty_lods_shape_witness :
    (createEmptyLods ⟨0, 0, 0⟩ 5 7).range =
      RangeZYX.withExtent ⟨0, 0, 0⟩ (128 * 2 ^ (5 - 5)) ∧
    ∀ (path : List (Fin 8)) (m : SvoNode (Option VoxelCellData)),
      nodeAt (createEmptyLods ⟨0, 0, 0⟩ 5 7).root path = some m →
        (m.isLeaf = true ↔
          ((rangeAt (createEmptyLods ⟨0, 0, 0⟩ 5 7).range path).size.x ≤ 32 ∨
            5 - 3 ≤ path.length)) ∧
        (m.isLeaf = true → path.length = 5 - 3 ∧
          (rangeAt (createEmptyLods ⟨0, 0, 0⟩ 5 7).range path).size = ⟨32, 32, 32⟩) ∧
        (payloadOf m).isSome = true :=
  create_empty_lods_shape 5 (by norm_num) ⟨0, 0, 0⟩ 7

/-! ## The propagator's frame property -/

theorem traverseSvo_presenceShape {P : Type} (setFn : P → Point3 → Int → P)
    (p : Point3) (n : SvoNode (Option P)) :
    ∀ (r : RangeZYX) (d : Nat) (s : Int),
      presenceShape (traverseSvo setFn p n r d s) = presenceShape n := by
  induction n with
  | Leaf v =>
      intro r d s
      by_cases hp : (paddedRange r s).containsPoint p = true <;>
        by_cases ha : alignedAt p s = true <;>
          simp [traverseSvo, presenceShape, hp, ha]
  | Internal v c ih =>
      intro r d s
      by_cases hp : (paddedRange r s).containsPoint p = true <;>
        by_cases ha : alignedAt p s = true <;>
          simp [traverseSvo, presenceShape, hp, ha, ih]

/-- C5: one `set_at_all_lods` call leaves the leaf/internal shape of the tree
and the presence or absence of every node's payload unchanged, for every
tree, sample coordinate, starting depth, scale factor and mutation: absent
payloads are skipped and no payload is ever created. The spanned range is
also unchanged. -/
theorem set_at_all_lods_preserves_presence_shape {P : Type}
    (svo : Svo (Option P)) (p : Point3) (d : Nat) (s : Int)
    (setFn : P → Point3 → Int → P) :
    presenceShape (setAtAllLods svo p d s setFn).root = presenceShape svo.root ∧
    (setAtAllLods svo p d s setFn).range = svo.range :=
  ⟨traverseSvo_presenceShape setFn p svo.root svo.range d s, rfl⟩

/-! ## Pruning -/

theorem pruneEmptyGrids_idem (n : SvoNode (Option VoxelCellData)) :
    n.pruneEmptyGrids.pruneEmptyGrids = n.pruneEmptyGrids := by
  induction n with
  | Leaf v =>
      cases v with
      | none => simp [SvoNode.pruneEmptyGrids]
      | some cd =>
          by_cases hg : cd.grid.isEmpty = true <;>
            simp [SvoNode.pruneEmptyGrids, hg]
  | Internal v c ih =>
      cases v with
      | none => simp [SvoNode.pruneEmptyGrids]
      | some cd =>
          by_cases hall :
              allChildren (fun i => ((c i).pruneEmptyGrids).isEmpty) = true
          · simp [SvoNode.pruneEmptyGrids, hall]
          · rw [Bool.not_eq_true] at hall
            simp only [SvoNode.pruneEmptyGrids, hall, Bool.false_eq_true, if_false]
            simp only [SvoNode.pruneEmptyGrids, ih, hall, Bool.false_eq_true,
              if_false]

theorem pruneEmptyGrids_internal_inv (n : SvoNode (Option VoxelCellData))
    (v : Option VoxelCellData) (c : Fin 8 → SvoNode (Option VoxelCellData))
    (h : n.pruneEmptyGrids = .Internal v c) :
    ∃ cd c0, n = .Internal (some cd) c0 ∧ v = some cd ∧
      (∀ i, c i = (c0 i).pruneEmptyGrids) ∧
      allChildren (fun i => (c i).isEmpty) = false := by
  cases n with
  | Leaf w =>
      cases w with
      | none => simp [SvoNode.pruneEmptyGrids] at h
      | some cd =>
          by_cases hg : cd.grid.isEmpty = true <;>
            simp [SvoNode.pruneEmptyGrids, hg] at h
  | Internal w c0 =>
      cases w with
      | none => simp [SvoNode.pruneEmptyGrids] at h
      | some cd =>
          by_cases hall :
              allChildren (fun i => ((c0 i).pruneEmptyGrids).isEmpty) = true
          · simp [SvoNode.pruneEmptyGrids, hall] at h
          · rw [Bool.not_eq_true] at hall
            simp only [SvoNode.pruneEmptyGrids, hall, Bool.false_eq_true,
              if_false] at h
            injection h with h1 h2
            refine ⟨cd, c0, rfl, h1.symm, fun i => by rw [← h2], ?_⟩
            rw [← h2]
            exact hall

theorem isEmpty_pruneEmptyGrids_iff (n : SvoNode (Option VoxelCellData)) :
    (n.pruneEmptyGrids).isEmpty = true ↔ n.pruneEmptyGrids = .Leaf none := by
  constructor
  · intro h
    cases hp : n.pruneEmptyGrids with
    | Leaf w =>
        cases w with
        | none => rfl
        | some cd => rw [hp] at h; simp [SvoNode.isEmpty] at h
    | Internal v c =>
        obtain ⟨cd, c0, _, hv, _, _⟩ := pruneEmptyGrids_internal_inv n v c hp
        rw [hp, hv] at h
        simp [SvoNode.isEmpty] at h
  · intro h
    rw [h]
    rfl

theorem nodeAt_pruneEmptyGrids (path : List (Fin 8)) :
    ∀ (t m : SvoNode (Option VoxelCellData)),
      nodeAt t.pruneEmptyGrids path = some m →
        ∃ s : SvoNode (Option VoxelCellData), m = s.pruneEmptyGrids := by
  induction path with
  | nil =>
      intro t m hm
      rw [nodeAt_nil] at hm
      injection hm with hm
      exact ⟨t, hm.symm⟩
  | cons i rest ih =>
      intro t m hm
      cases hp : t.pruneEmptyGrids with
      | Leaf w => rw [hp] at hm; simp [nodeAt] at hm
      | Internal v c =>
          rw [hp] at hm
          simp only [nodeAt] at hm
          obtain ⟨cd, c0, ht, hv, hc, hall⟩ := pruneEmptyGrids_internal_inv t v c hp
          rw [hc i] at hm
          exact ih (c0 i) m hm

/-- C3: pruning is idempotent; applying `prune_empty_grids` to an
already-pruned tree returns an identical tree (same shape, same payloads,
same range). -/
theorem prune_empty_grids_idempotent (svo : Svo (Option VoxelCellData)) :
    svo.pruneEmptyGrids.pruneEmptyGrids = svo.pruneEmptyGrids := by
  cases svo with
  | mk root range => simp [Svo.pruneEmptyGrids, pruneEmptyGrids_idem]

/-- C4: every Internal node that survives pruning keeps its 8 children and
its original payload at the same position (hence the same depth): if the
pruned tree has an Internal node at `path`, the original tree has an Internal
node with the same payload at `path`, and the surviving children are exactly
the pruned original children. -/
theorem prune_preserves_surviving_internal :
    ∀ (path : List (Fin 8)) (t : SvoNode (Option VoxelCellData))
      (v : Option VoxelCellData) (c : Fin 8 → SvoNode (Option VoxelCellData)),
      nodeAt t.pruneEmptyGrids path = some (.Internal v c) →
      ∃ c0 : Fin 8 → SvoNode (Option VoxelCellData),
        nodeAt t path = some (.Internal v c0) ∧
        ∀ i, c i = (c0 i).pruneEmptyGrids := by
  intro path
  induction path with
  | nil =>
      intro t v c hm
      rw [nodeAt_nil] at hm
      injection hm with hm
      obtain ⟨cd, c0, ht, hv, hc, _⟩ := pruneEmptyGrids_internal_inv t v c hm
      refine ⟨c0, ?_, hc⟩
      rw [nodeAt_nil, ht, hv]
  | cons i rest ih =>
      intro t v c hm
      cases hp : t.pruneEmptyGrids with
      | Leaf w => rw [hp] at hm; simp [nodeAt] at hm
      | Internal v1 c1 =>
          rw [hp] at hm
          simp only [nodeAt] at hm
          obtain ⟨cd, c0, ht, hv1, hc1, _⟩ := pruneEmptyGrids_internal_inv t v1 c1 hp
          rw [hc1 i] at hm
          obtain ⟨c2, hnode, hrel⟩ := ih (c0 i) v c hm
          refine ⟨c2, ?_, hrel⟩
          rw [ht]
          simpa only [nodeAt] using hnode

/-- Witness for C4: a two-level tree with one non-empty leaf, checked at the
root path. -/
theorem prune_preserves_surviving_internal_witness :
    ∃ c0 : Fin 8 → SvoNode (Option VoxelCellData),
      nodeAt (SvoNode.Internal (some sampleEmptyCell)
        (fun _ => SvoNode.Leaf (some sampleFullCell))) [] =
        some (.Internal (some sampleEmptyCell) c0) ∧
      ∀ i, (SvoNode.Leaf (some sampleFullCell)).pruneEmptyGrids =
        (c0 i).pruneEmptyGrids :=
  prune_preserves_surviving_internal []
    (SvoNode.Internal (some sampleEmptyCell)
      (fun _ => SvoNode.Leaf (some sampleFullCell)))
    (some sampleEmptyCell)
    (fun _ => (SvoNode.Leaf (some sampleFullCell)).pruneEmptyGrids)
    (by rw [nodeAt_nil]; exact rfl)

/-- C10: in a pruned tree every Internal node carries a present payload and
has at least one child that is not the empty marker `Leaf(None)`; and
`is_empty` holds of the pruned root exactly when it is `Leaf(None)`. -/
theorem pruned_tree_internal_invariant (t : SvoNode (Option VoxelCellData)) :
    (∀ (path : List (Fin 8)) (v : Option VoxelCellData)
        (c : Fin 8 → SvoNode (Option VoxelCellData)),
      nodeAt t.pruneEmptyGrids path = some (.Internal v c) →
        v.isSome = true ∧ ∃ i, c i ≠ SvoNode.Leaf none) ∧
    ((t.pruneEmptyGrids).isEmpty = true ↔ t.pruneEmptyGrids = .Leaf none) := by
  constructor
  · intro path v c hm
    obtain ⟨s, hs⟩ := nodeAt_pruneEmptyGrids path t (.Internal v c) hm
    obtain ⟨cd, c0, _, hv, _, hall⟩ := pruneEmptyGrids_internal_inv s v c hs.symm
    refine ⟨by rw [hv]; rfl, ?_⟩
    have hex : ∃ i, (c i).isEmpty = false := by
      by_contra hno
      push_neg at hno
      have htrue : ∀ i, (c i).isEmpty = true := by
        intro i
        rcases Bool.eq_false_or_eq_true ((c i).isEmpty) with h | h
        · exact h
        · exact absurd h (hno i)
      rw [(allChildren_eq_true_iff _).mpr htrue] at hall
      cases hall
    obtain ⟨i, hi⟩ := hex
    refine ⟨i, fun hleaf => ?_⟩
    rw [hleaf] at hi
    simp [SvoNode.isEmpty] at hi
  · exact isEmpty_pruneEmptyGrids_iff t

/-- Witness for C10: the invariant instantiated on a concrete two-level tree
at the root path. -/
theorem pruned_tree_internal_invariant_witness :
    (some sampleEmptyCell : Option VoxelCellData).isSome = true ∧
      ∃ _i : Fin 8,
        (SvoNode.Leaf (some sampleFullCell)).pruneEmptyGrids ≠ SvoNode.Leaf none :=
  (pruned_tree_internal_invariant
      (SvoNode.Internal (some sampleEmptyCell)
        (fun _ => SvoNode.Leaf (some sampleFullCell)))).1 []
    (some sampleEmptyCell)
    (fun _ => (SvoNode.Leaf (some sampleFullCell)).pruneEmptyGrids)
    (by rw [nodeAt_nil]; exact rfl)

/-! ## Builder payload registration -/

theorem buildSvoNode_payload (r : RangeZYX) (l : Int) (d maxD mat : Nat) :
    payloadOf (buildSvoNode r l d maxD mat) = some (mkCell r.origin l mat) := by
  unfold buildSvoNode
  split <;> rfl

/-- C8: every payload allocated by the builder is pre-registered with a
material mapping in which index 1 is the internal debug material
(identifier 157903047) and index 2 is the material identifier supplied by
the caller. -/
theorem builder_material_mapping (H : Nat) (hH : 5 ≤ H) (o : Point3)
    (material : Nat) (path : List (Fin 8)) (m : SvoNode (Option VoxelCellData))
    (hm : nodeAt (createEmptyLods o H material).root path = some m) :
    ∃ cd, payloadOf m = some cd ∧
      cd.mapping.lookup 1 = some debugMaterial ∧
      debugMaterial.id = 157903047 ∧
      cd.mapping.lookup 2 = some ⟨material, "Material"⟩ := by
  obtain ⟨_, _, hpayload, _⟩ :=
    createEmptyLods_nodeAt_spec o H material hH path m hm
  exact ⟨_, hpayload, rfl, rfl, rfl⟩

/-- Witness for C8: instantiated at height 5 and the default material id of
the command line, at the root path. -/
theorem builder_material_mapping_witness :
    ∃ cd, payloadOf (createEmptyLods ⟨0, 0, 0⟩ 5 1971262921).root = some cd ∧
      cd.mapping.lookup 1 = some debugMaterial ∧
      debugMaterial.id = 157903047 ∧
      cd.mapping.lookup 2 = some ⟨1971262921, "Material"⟩ :=
  builder_material_mapping 5 (by norm_num) ⟨0, 0, 0⟩ 1971262921 [] _ (nodeAt_nil _)

/-- C7 (amended): at every node the builder creates, the payload is
allocated against an inner range that is the exact node-local cube of edge
32 at the node's origin, and an outer range of fixed edge 35 whose origin is
the inner origin shifted back by one unit on every axis (so one unit of
padding below and two above the inner cube on each axis, not one on every
side). -/
theorem builder_payload_ranges_amended (H : Nat) (hH : 5 ≤ H) (o : Point3)
    (material : Nat) (path : List (Fin 8)) (m : SvoNode (Option VoxelCellData))
    (hm : nodeAt (createEmptyLods o H material).root path = some m) :
    ∃ cd, payloadOf m = some cd ∧
      cd.grid.inner = RangeZYX.withExtent
        (rangeAt (createEmptyLods o H material).range path).origin 32 ∧
      cd.grid.outer = RangeZYX.withExtent
        ⟨(rangeAt (createEmptyLods o H material).range path).origin.x - 1,
         (rangeAt (createEmptyLods o H material).range path).origin.y - 1,
         (rangeAt (createEmptyLods o H material).range path).origin.z - 1⟩ 35 := by
  obtain ⟨_, _, hpayload, _⟩ :=
    createEmptyLods_nodeAt_spec o H material hH path m hm
  exact ⟨_, hpayload, rfl, rfl⟩

/-- Witness for C7: the amended range layout at the root node of a height-5
build. -/
theorem builder_payload_ranges_amended_witness :
    ∃ cd, payloadOf (createEmptyLods ⟨0, 0, 0⟩ 5 9).root = some cd ∧
      cd.grid.inner = RangeZYX.withExtent
        (rangeAt (createEmptyLods ⟨0, 0, 0⟩ 5 9).range []).origin 32 ∧
      cd.grid.outer = RangeZYX.withExtent
        ⟨(rangeAt (createEmptyLods ⟨0, 0, 0⟩ 5 9).range []).origin.x - 1,
         (rangeAt (createEmptyLods ⟨0, 0, 0⟩ 5 9).range []).origin.y - 1,
         (rangeAt (createEmptyLods ⟨0, 0, 0⟩ 5 9).range []).origin.z - 1⟩ 35 :=
  builder_payload_ranges_amended 5 (by norm_num) ⟨0, 0, 0⟩ 9 [] _ (nodeAt_nil _)

/-- Counterexample to C7 as stated: at the root node of a height-5 build the
payload's outer range has edge 35, but it is not the inner range expanded by
one unit of padding on every side, since that would have edge 34. -/
theorem builder_outer_range_counterexample :
    payloadAt (createEmptyLods ⟨0, 0, 0⟩ 5 7).root [] =
      some (some (mkCell ⟨0, 0, 0⟩ 32 7)) ∧
    (mkCell ⟨0, 0, 0⟩ 32 7).grid.outer.size = ⟨35, 35, 35⟩ ∧
    (mkCell ⟨0, 0, 0⟩ 32 7).grid.outer ≠
      RangeZYX.expandByOne (mkCell ⟨0, 0, 0⟩ 32 7).grid.inner := by
  refine ⟨?_, rfl, by decide⟩
  simp only [payloadAt, nodeAt_nil, Option.map_some']
  exact congrArg some
    (buildSvoNode_payload (RangeZYX.withExtent ⟨0, 0, 0⟩ (128 * 2 ^ (5 - 5)))
      32 0 (5 - 3) 7)

/-! ## Position snapping -/

/-- Counterexample to C6 as stated: for the input position (1.25, 0, 0) the
coordinate handed to the propagator on the x axis is 2, while the nearest
integer to 1.25 under round-half-away-from-zero is 1 (the code adds 0.5
before rounding; 1.25, 0.5 and their sums are exactly representable in
`f64`, so the rational model is exact here). The claim's own example fails
the same way: 1.2 is handed as 2, not 1. -/
theorem snap_position_claim_counterexample :
    positionsToGlobal [(5 / 4, 0, 0)] = [⟨2, 1, 1⟩] ∧
    roundHalfAway (5 / 4) = 1 := by
  constructor
  · have h1 : snapCoord (5 / 4) = 2 := by
      rw [snapCoord, roundHalfAway, if_pos (by norm_num)]
      norm_num
    have h0 : snapCoord 0 = 1 := by
      rw [snapCoord, roundHalfAway, if_pos (by norm_num)]
      norm_num
    simp [positionsToGlobal, snapPosition, h1, h0]
  · rw [roundHalfAway, if_pos (by norm_num)]
    norm_num

/-- C6 (amended): on each axis the coordinate handed to the propagator is
the nearest integer to (input + 0.5), ties away from zero, because the code
adds 0.5 before rounding; concretely it is `⌊q⌋ + 1` for every input
`q ≥ -1/2` and `⌈q⌉` for every input `q < -1/2` (so 1.2 is handed as 2). -/
theorem snap_position_amended (q : ℚ) :
    (-(1 / 2) ≤ q → snapCoord q = ⌊q⌋ + 1) ∧
    (q < -(1 / 2) → snapCoord q = ⌈q⌉) := by
  constructor
  · intro h
    rw [snapCoord, roundHalfAway, if_pos (by linarith)]
    rw [show q + 1 / 2 + 1 / 2 = q + 1 from by ring, Int.floor_add_one]
  · intro h
    rw [snapCoord, roundHalfAway, if_neg (by intro hc; linarith)]
    rw [show q + 1 / 2 - 1 / 2 = q from by ring]

/-- Witness for C6 (amended): the input 1.5 is handed as 2. -/
theorem snap_position_amended_witness :
    -(1 / 2 : ℚ) ≤ 3 / 2 ∧ snapCoord (3 / 2) = ⌊(3 / 2 : ℚ)⌋ + 1 :=
  ⟨by norm_num, (snap_position_amended (3 / 2)).1 (by norm_num)⟩

/-! ## Construction assertions -/

theorem fromFnNode_total {T : Type} (func : RangeZYX → SvoReturn T)
    (hleaf : ∀ r : RangeZYX, r.size.x = 1 → (func r).isLeafVerdict = true) :
    ∀ (extent : Nat), 0 < extent → ∀ origin : Point3,
      ∃ n, SvoNode.fromFn func origin extent = some n := by
  intro extent
  induction extent using Nat.strong_induction_on with
  | _ extent ih =>
      intro hpos origin
      rcases hf : func (RangeZYX.withExtent origin (extent : Int)) with v | v
      · refine ⟨.Leaf v, ?_⟩
        unfold SvoNode.fromFn
        rw [dif_neg (by omega : ¬extent = 0)]
        simp [hf]
      · rcases Nat.lt_or_ge extent 2 with hsmall | hbig
        · have hone : extent = 1 := by omega
          have hx : (RangeZYX.withExtent origin (extent : Int)).size.x = 1 := by
            simp [RangeZYX.withExtent, hone]
          have hv := hleaf _ hx
          rw [hf] at hv
          simp [SvoReturn.isLeafVerdict] at hv
        · have hlt : extent / 2 < extent := by omega
          have hhalf : 0 < extent / 2 := by omega
          obtain ⟨c0, h0⟩ := ih _ hlt hhalf
            ((RangeZYX.withExtent origin (extent : Int)).splitAtCenter 0).origin
          obtain ⟨c1, h1⟩ := ih _ hlt hhalf
            ((RangeZYX.withExtent origin (extent : Int)).splitAtCenter 1).origin
          obtain ⟨c2, h2⟩ := ih _ hlt hhalf
            ((RangeZYX.withExtent origin (extent : Int)).splitAtCenter 2).origin
          obtain ⟨c3, h3⟩ := ih _ hlt hhalf
            ((RangeZYX.withExtent origin (extent : Int)).splitAtCenter 3).origin
          obtain ⟨c4, h4⟩ := ih _ hlt hhalf
            ((RangeZYX.withExtent origin (extent : Int)).splitAtCenter 4).origin
          obtain ⟨c5, h5⟩ := ih _ hlt hhalf
            ((RangeZYX.withExtent origin (extent : Int)).splitAtCenter 5).origin
          obtain ⟨c6, h6⟩ := ih _ hlt hhalf
            ((RangeZYX.withExtent origin (extent : Int)).splitAtCenter 6).origin
          obtain ⟨c7, h7⟩ := ih _ hlt hhalf
            ((RangeZYX.withExtent origin (extent : Int)).splitAtCenter 7).origin
          have hres : SvoNode.fromFn func origin extent =
              some (.Internal v ![c0, c1, c2, c3, c4, c5, c6, c7]) := by
            unfold SvoNode.fromFn
            rw [dif_neg (by omega : ¬extent = 0)]
            simp only [hf, h0, h1, h2, h3, h4, h5, h6, h7, Option.some_bind]
          exact ⟨_, hres⟩

/-- C9 (amended): a zero or non-power-of-two extent makes `Svo::from_fn`
abort with no tree produced; for a power-of-two extent the top-level
assertion passes, and the recursive build's assertion also never fires
provided the classifier returns a Leaf verdict on every edge-1 range, so a
tree is produced. (As stated the claim fails: if the classifier subdivides
an edge-1 range, the inner assertion fires on the size-0 octants even though
the extent is a power of two.) -/
theorem from_fn_assertions_amended {T : Type} (origin : Point3) (extent : Nat)
    (func : RangeZYX → SvoReturn T) :
    (isPow2 extent = false → Svo.fromFn origin extent func = none) ∧
    (isPow2 extent = true →
      (∀ r : RangeZYX, r.size.x = 1 → (func r).isLeafVerdict = true) →
      ∃ t : Svo T, Svo.fromFn origin extent func = some t) := by
  constructor
  · intro h
    simp [Svo.fromFn, h]
  · intro hpow hleaf
    have hpos : 0 < extent := by
      rcases Nat.eq_zero_or_pos extent with h0 | h0
      · rw [h0] at hpow
        simp [isPow2] at hpow
      · exact h0
    obtain ⟨n, hn⟩ := fromFnNode_total func hleaf extent hpos origin
    exact ⟨⟨n, RangeZYX.withExtent origin (extent : Int)⟩,
      by simp [Svo.fromFn, hpow, hn]⟩

/-- Witness for C9 (amended): extent 2 with an always-Leaf classifier
produces a tree. -/
theorem from_fn_assertions_amended_witness :
    isPow2 2 = true ∧
    ∃ t : Svo Nat,
      Svo.fromFn ⟨0, 0, 0⟩ 2 (fun _ => SvoReturn.Leaf 0) = some t :=
  ⟨rfl, (from_fn_assertions_amended ⟨0, 0, 0⟩ 2 (fun _ => SvoReturn.Leaf 0)).2 rfl
    (fun _ _ => rfl)⟩

/-- Counterexample to C9 as stated: extent 1 is a power of two, yet a
classifier that subdivides everywhere makes the recursive build's assertion
fire (the octants of an edge-1 cube have size 0) and no tree is produced. -/
theorem from_fn_power_of_two_counterexample :
    isPow2 1 = true ∧
    Svo.fromFn ⟨0, 0, 0⟩ 1 (fun _ => SvoReturn.Internal (0 : Nat)) = none := by
  refine ⟨rfl, ?_⟩
  have h0 : ∀ o : Point3,
      SvoNode.fromFn (fun _ => SvoReturn.Internal (0 : Nat)) o 0 = none := by
    intro o
    unfold SvoNode.fromFn
    rw [dif_pos rfl]
  have h1 : SvoNode.fromFn (fun _ => SvoReturn.Internal (0 : Nat)) ⟨0, 0, 0⟩ 1 =
      none := by
    unfold SvoNode.fromFn
    rw [dif_neg (by omega : ¬(1 : Nat) = 0)]
    simp [h0]
  simp [Svo.fromFn, h1]
